import Mathlib

/-!
Shallow embedding of the constraint-filtering pipeline of
`updown/utils/cbs.py` (class `ConstraintFilter`): category-hierarchy
construction with blacklist pruning, substring-based height lookup,
hierarchy-aware non-maximum suppression, and the top-k / replacement /
dedup stages of `ConstraintFilter.__call__`.

Modelling conventions: numpy float arithmetic is embedded into ℚ (the
boxes, scores and thresholds in play are exact decimals); Python lists
are Lean lists; operations that can raise (out-of-range indexing,
failed hierarchy lookup) return `Option`; `np.argsort` and Python's
stable `sorted` are both modelled by `List.insertionSort`, and
`list(set(..))` by `List.dedup` (the claims about the final result are
membership/cardinality facts, insensitive to set iteration order).
-/

namespace Updown

/-- A detection box `(x1, y1, x2, y2)`, as the rows of the `boxes` array. -/
structure Box where
  x1 : ℚ
  y1 : ℚ
  x2 : ℚ
  y2 : ℚ
deriving DecidableEq, Repr

instance : Inhabited Box := ⟨⟨0, 0, 0, 0⟩⟩

/-- `areas = (x2 - x1 + 1) * (y2 - y1 + 1)` (cbs.py line 144). -/
def area (b : Box) : ℚ := (b.x2 - b.x1 + 1) * (b.y2 - b.y1 + 1)

/-- Pairwise intersection area, clamped at 0 per axis (cbs.py lines 159-164). -/
def inter (a b : Box) : ℚ :=
  max 0 (min a.x2 b.x2 - max a.x1 b.x1 + 1) * max 0 (min a.y2 b.y2 - max a.y1 b.y1 + 1)

/-- `intersection / union` with `union = areas[i] + areas[j] - intersection`
(cbs.py line 165 and the quotient on line 171). -/
def iou (a b : Box) : ℚ := inter a b / (area a + area b - inter a b)

/-- The in-memory hierarchy tree: an `anytree.AnyNode` with its `LabelName`
attribute and its children. -/
inductive HTree where
  | node : String → List HTree → HTree

def HTree.label : HTree → String
  | .node l _ => l

def HTree.children : HTree → List HTree
  | .node _ c => c

mutual

/-- `anytree` node height: 0 for a leaf, else 1 + max over children. -/
def HTree.height : HTree → Nat
  | .node _ cs => heightList cs

def heightList : List HTree → Nat
  | [] => 0
  | t :: ts => max (t.height + 1) (heightList ts)

end

mutual

/-- Pre-order traversal, the iteration order of `anytree.search.findall`. -/
def HTree.preorder : HTree → List HTree
  | .node l cs => .node l cs :: preorderList cs

def preorderList : List HTree → List HTree
  | [] => []
  | t :: ts => t.preorder ++ preorderList ts

end

mutual

/-- All `LabelName`s occurring in the tree. -/
def HTree.labels : HTree → List String
  | .node l cs => l :: labelsList cs

def labelsList : List HTree → List String
  | [] => []
  | t :: ts => t.labels ++ labelsList ts

end

/-- Python's substring containment `a in b` on strings. -/
def isSubstrOf (a b : String) : Bool := decide (a.data <:+: b.data)

/-- `anytree.search.findall(self._hierarchy, lambda node: node.LabelName in c)[0]`
(cbs.py line 134): the first pre-order node whose label is a substring of `c`;
`none` models the IndexError when no node matches. -/
def lookupNode (h : HTree) (c : String) : Option HTree :=
  h.preorder.find? (fun n => isSubstrOf n.label c)

/-- Height of the first matching node, the per-class score of `_nms`. -/
def lookupHeight (h : HTree) (c : String) : Option Nat :=
  (lookupNode h c).map HTree.height

/-- A node of the nested taxonomy description (the parsed hierarchy JSON):
its `LabelName` and its `Subcategory` list. -/
inductive JNode where
  | mk : String → List JNode → JNode

def JNode.label : JNode → String
  | .mk l _ => l

def JNode.sub : JNode → List JNode
  | .mk _ s => s

mutual

/-- `__read_hierarchy` (cbs.py lines 75-85): build the tree, dropping every
child whose `LabelName` is blacklisted before recursing (the root itself is
never checked). -/
def readHierarchy : List String → JNode → HTree
  | bl, .mk lab cs => .node lab (readList bl cs)

def readList : List String → List JNode → List HTree
  | _, [] => []
  | bl, c :: cs =>
      if c.label ∈ bl then readList bl cs
      else readHierarchy bl c :: readList bl cs

end

mutual

/-- Label `l` occurs in the description along a path whose non-root nodes all
avoid the blacklist: the labels that blacklist pruning must preserve. -/
def occursClean : List String → JNode → String → Bool
  | bl, .mk lab cs, l => l == lab || occursCleanList bl cs l

def occursCleanList : List String → List JNode → String → Bool
  | _, [], _ => false
  | bl, c :: cs, l =>
      (!decide (c.label ∈ bl) && occursClean bl c l) || occursCleanList bl cs l

end

/-- `ConstraintFilter.BLACKLIST` (cbs.py lines 54-62), verbatim. -/
def BLACKLIST : List String := [
  "auto part", "bathroom accessory", "bicycle wheel", "boy", "building", "clothing",
  "door handle", "fashion accessory", "footwear", "girl", "hiking equipment", "human arm",
  "human beard", "human body", "human ear", "human eye", "human face", "human foot",
  "human hair", "human hand", "human head", "human leg", "human mouth", "human nose",
  "land vehicle", "mammal", "man", "person", "personal care", "plant", "plumbing fixture",
  "seat belt", "skull", "sports equipment", "tire", "tree", "vehicle registration plate",
  "wheel", "woman"
]

/-- `ConstraintFilter.REPLACEMENTS` (cbs.py lines 65-72), verbatim. -/
def REPLACEMENTS : List (String × String) := [
  ("band-aid", "bandaid"),
  ("wood-burning stove", "wood burning stove"),
  ("kitchen & dining room table", "table"),
  ("salt and pepper shakers", "salt and pepper"),
  ("power plugs and sockets", "power plugs"),
  ("luggage and bags", "luggage")
]

/-- `self.REPLACEMENTS.get(t[0], t[0])` (cbs.py line 118). -/
def applyReplacement (s : String) : String := (REPLACEMENTS.lookup s).getD s

/-- `heights.argsort()` (cbs.py line 139): the indices `0..n-1` sorted by
ascending height (stably, as the deterministic model of the sort). -/
def argsort (hs : List Nat) : List Nat :=
  (List.range hs.length).insertionSort (fun i j => hs.getD i 0 ≤ hs.getD j 0)

/-- The `keep_condition` of one NMS iteration (cbs.py lines 169-172): keep `j`
when its class height is at least the current one's, or the overlap with the
current box does not exceed the threshold. -/
def keepCond (boxes : List Box) (hs : List Nat) (τ : ℚ) (cur j : Nat) : Bool :=
  decide (hs.getD cur 0 ≤ hs.getD j 0) ||
  decide (iou (boxes.getD cur default) (boxes.getD j default) ≤ τ)

/-- The greedy sweep of `_nms` (cbs.py lines 150-176), with an explicit fuel
bound on the number of iterations: keep the head of the order, filter the rest
by `keep_condition`, repeat. Each round strictly shrinks the order, so fuel
equal to the initial length never runs out (`nmsSweepFuel_congr`). -/
def nmsSweepFuel (boxes : List Box) (hs : List Nat) (τ : ℚ) :
    Nat → List Nat → List Nat
  | _, [] => []
  | 0, _ :: _ => []
  | fuel + 1, cur :: rest =>
      cur :: nmsSweepFuel boxes hs τ fuel (rest.filter (keepCond boxes hs τ cur))

/-- The greedy sweep of `_nms`, at its actual fuel. -/
def nmsSweep (boxes : List Box) (hs : List Nat) (τ : ℚ) (l : List Nat) :
    List Nat :=
  nmsSweepFuel boxes hs τ l.length l

/-- The `heights` list comprehension of `_nms` (cbs.py lines 132-137):
`none` as soon as one class name resolves to no hierarchy node. -/
def lookupHeights (h : HTree) : List String → Option (List Nat)
  | [] => some []
  | c :: cs =>
      match lookupHeight h c, lookupHeights h cs with
      | some x, some xs => some (x :: xs)
      | _, _ => none

/-- `ConstraintFilter._nms` (cbs.py lines 124-178): look up every class height,
then sweep the height-sorted index order. -/
def nms (h : HTree) (τ : ℚ) (boxes : List Box) (cls : List String) :
    Option (List Nat) :=
  (lookupHeights h cls).map (fun hs => nmsSweep boxes hs τ (argsort hs))

/-- The pre-filter loop of `__call__` (cbs.py lines 97-100): the indices `i`
with `scores[i] > 0` whose class name is not blacklisted. -/
def prefilterIndices (cls : List String) (scores : List ℚ) : List Nat :=
  (List.range cls.length).filter
    (fun i => decide (0 < scores.getD i 0) && !decide (cls.getD i "" ∈ BLACKLIST))

/-- The tail of `__call__` after NMS (cbs.py lines 109-122): index the
surviving class names and scores by the NMS result, stably sort the pairs by
descending score, truncate to `topk`, apply `REPLACEMENTS`, drop duplicates. -/
def selectStage (topk : Nat) (cls2 : List String) (scores2 : List ℚ)
    (keep2 : List Nat) : List String :=
  let cls3 := keep2.map (fun i => cls2.getD i "")
  let scores3 := keep2.map (fun i => scores2.getD i 0)
  let pairs := (cls3.zip scores3).insertionSort (fun a b => -a.2 ≤ -b.2)
  ((pairs.take topk).map (fun t => applyReplacement t.1)).dedup

/-- `ConstraintFilter.__call__` (cbs.py lines 93-122). The pre-filter loop
reads `scores[i]` for every `i < len(class_names)`, so it raises when `scores`
is shorter than `class_names`; `boxes[keep_indices]` raises when a kept index
is out of range of `boxes`. The `_nms` indices are always in range of the
pre-filtered arrays, so no further check is needed after NMS. -/
def filterCall (h : HTree) (τ : ℚ) (topk : Nat)
    (boxes : List Box) (cls : List String) (scores : List ℚ) :
    Option (List String) :=
  if cls.length ≤ scores.length then
    if (prefilterIndices cls scores).all (fun i => decide (i < boxes.length)) then
      (nms h τ
          ((prefilterIndices cls scores).map (fun i => boxes.getD i default))
          ((prefilterIndices cls scores).map (fun i => cls.getD i ""))).map
        (selectStage topk
          ((prefilterIndices cls scores).map (fun i => cls.getD i ""))
          ((prefilterIndices cls scores).map (fun i => scores.getD i 0)))
    else none
  else none

/-! Concrete fixtures for the spec's Dog/Animal scenario: a three-node
hierarchy `Entity → Animal → Dog` (heights 2, 1, 0) and two highly
overlapping boxes. -/

/-- The Dog/Animal test hierarchy. -/
def hDA : HTree := .node "Entity" [.node "Animal" [.node "Dog" []]]

/-- The box `(0, 0, 10, 10)` of the spec's concrete scenario. -/
def boxA : Box := ⟨0, 0, 10, 10⟩

/-- The box `(0, 0, 10, 9)` of the spec's concrete scenario. -/
def boxB : Box := ⟨0, 0, 10, 9⟩

/-- The two boxes of the concrete scenario. -/
def dogAnimalBoxes : List Box := [boxA, boxB]

/-- The two class names of the concrete scenario. -/
def dogAnimalClasses : List String := ["Dog", "Animal"]

/-- The two scores of the concrete scenario. -/
def dogAnimalScores : List ℚ := [9/10, 8/10]

/-! ### Lemmas about the greedy sweep -/

theorem nmsSweepFuel_congr (boxes : List Box) (hs : List Nat) (τ : ℚ) :
    ∀ f₁ f₂ l, l.length ≤ f₁ → l.length ≤ f₂ →
      nmsSweepFuel boxes hs τ f₁ l = nmsSweepFuel boxes hs τ f₂ l := by
  intro f₁
  induction f₁ with
  | zero =>
    intro f₂ l h₁ _
    have hl : l = [] := List.length_eq_zero.mp (Nat.le_zero.mp h₁)
    subst hl
    cases f₂ <;> rfl
  | succ f ih =>
    intro f₂ l h₁ h₂
    cases l with
    | nil => cases f₂ <;> rfl
    | cons cur rest =>
      cases f₂ with
      | zero => simp at h₂
      | succ f₂ =>
        have hr₁ : rest.length ≤ f := by simp at h₁; omega
        have hr₂ : rest.length ≤ f₂ := by simp at h₂; omega
        simp only [nmsSweepFuel]
        exact congrArg (cur :: ·) (ih f₂ _
          (le_trans (List.length_filter_le _ _) hr₁)
          (le_trans (List.length_filter_le _ _) hr₂))

theorem nmsSweep_cons (boxes : List Box) (hs : List Nat) (τ : ℚ)
    (cur : Nat) (rest : List Nat) :
    nmsSweep boxes hs τ (cur :: rest) =
      cur :: nmsSweep boxes hs τ (rest.filter (keepCond boxes hs τ cur)) := by
  unfold nmsSweep
  simp only [List.length_cons, nmsSweepFuel]
  exact congrArg (cur :: ·) (nmsSweepFuel_congr boxes hs τ rest.length _ _
    (List.length_filter_le _ _) le_rfl)

theorem nmsSweepFuel_subset (boxes : List Box) (hs : List Nat) (τ : ℚ) :
    ∀ fuel l j, j ∈ nmsSweepFuel boxes hs τ fuel l → j ∈ l := by
  intro fuel
  induction fuel with
  | zero =>
    intro l j hj
    cases l <;> simp [nmsSweepFuel] at hj
  | succ f ih =>
    intro l j hj
    cases l with
    | nil => simp [nmsSweepFuel] at hj
    | cons cur rest =>
      simp only [nmsSweepFuel, List.mem_cons] at hj
      rcases hj with rfl | hj
      · exact List.mem_cons_self _ _
      · exact List.mem_cons_of_mem _ (List.mem_of_mem_filter (ih _ j hj))

theorem nmsSweep_subset (boxes : List Box) (hs : List Nat) (τ : ℚ)
    (l : List Nat) (j : Nat) (hj : j ∈ nmsSweep boxes hs τ l) : j ∈ l :=
  nmsSweepFuel_subset boxes hs τ l.length l j hj

theorem nmsSweep_sorted_eq (boxes : List Box) (hs : List Nat) (τ : ℚ) :
    ∀ l : List Nat, l.Sorted (fun i j => hs.getD i 0 ≤ hs.getD j 0) →
      nmsSweep boxes hs τ l = l := by
  intro l
  induction l with
  | nil => intro _; rfl
  | cons cur rest ih =>
    intro hsort
    rw [List.sorted_cons] at hsort
    have hfilter : rest.filter (keepCond boxes hs τ cur) = rest := by
      rw [List.filter_eq_self]
      intro j hj
      simp only [keepCond, Bool.or_eq_true, decide_eq_true_eq]
      exact Or.inl (hsort.1 j hj)
    rw [nmsSweep_cons, hfilter, ih hsort.2]

theorem argsort_perm (hs : List Nat) :
    (argsort hs).Perm (List.range hs.length) :=
  List.perm_insertionSort _ _

theorem argsort_sorted (hs : List Nat) :
    (argsort hs).Sorted (fun i j => hs.getD i 0 ≤ hs.getD j 0) := by
  haveI : IsTotal Nat (fun i j => hs.getD i 0 ≤ hs.getD j 0) :=
    ⟨fun a b => Nat.le_total _ _⟩
  haveI : IsTrans Nat (fun i j => hs.getD i 0 ≤ hs.getD j 0) :=
    ⟨fun a b c hab hbc => Nat.le_trans hab hbc⟩
  exact List.sorted_insertionSort _ _

theorem lookupHeights_length (h : HTree) :
    ∀ cls hs, lookupHeights h cls = some hs → hs.length = cls.length := by
  intro cls
  induction cls with
  | nil =>
    intro hs hhs
    simp only [lookupHeights, Option.some.injEq] at hhs
    simp [← hhs]
  | cons c cs ih =>
    intro hs hhs
    simp only [lookupHeights] at hhs
    cases hx : lookupHeight h c with
    | none => rw [hx] at hhs; simp at hhs
    | some x =>
      cases hxs : lookupHeights h cs with
      | none => rw [hx, hxs] at hhs; simp at hhs
      | some xs =>
        rw [hx, hxs] at hhs
        simp only [Option.some.injEq] at hhs
        subst hhs
        simp [ih xs hxs]

/-! ### Lemmas about the pre-filter and the selection stage -/

theorem getD_take {α : Type} (l : List α) (n i : Nat) (d : α) (hi : i < n) :
    (l.take n).getD i d = l.getD i d := by
  rcases Nat.lt_or_ge i l.length with hl | hl
  · have h1 : i < (l.take n).length := by simp [List.length_take]; omega
    rw [List.getD_eq_getElem _ _ h1, List.getD_eq_getElem _ _ hl]
    exact List.getElem_take _
  · have h2 : (l.take n).length ≤ i := by simp [List.length_take]; omega
    rw [List.getD_eq_default _ _ h2, List.getD_eq_default _ _ hl]

theorem mem_prefilterIndices (cls : List String) (scores : List ℚ) (i : Nat) :
    i ∈ prefilterIndices cls scores ↔
      i < cls.length ∧ 0 < scores.getD i 0 ∧ cls.getD i "" ∉ BLACKLIST := by
  simp [prefilterIndices, List.mem_filter, List.mem_range, and_assoc]

theorem mem_selectStage (topk : Nat) (cls2 : List String) (scores2 : List ℚ)
    (keep2 : List Nat) (lab : String)
    (hlab : lab ∈ selectStage topk cls2 scores2 keep2) :
    ∃ j ∈ keep2, lab = applyReplacement (cls2.getD j "") := by
  simp only [selectStage] at hlab
  rw [List.mem_dedup] at hlab
  obtain ⟨t, ht, rfl⟩ := List.mem_map.mp hlab
  have ht2 := List.mem_of_mem_take ht
  rw [List.mem_insertionSort, List.zip_map'] at ht2
  obtain ⟨j, hj, rfl⟩ := List.mem_map.mp ht2
  exact ⟨j, hj, rfl⟩

/-! ### Lemmas about hierarchy construction -/

mutual

theorem readHierarchy_labels_iff (bl : List String) (j : JNode) (l : String) :
    l ∈ (readHierarchy bl j).labels ↔ occursClean bl j l = true := by
  cases j with
  | mk lab cs =>
    simp only [readHierarchy, HTree.labels, occursClean, List.mem_cons,
      Bool.or_eq_true, beq_iff_eq]
    exact or_congr Iff.rfl (readList_labels_iff bl cs l)

theorem readList_labels_iff (bl : List String) (cs : List JNode) (l : String) :
    l ∈ labelsList (readList bl cs) ↔ occursCleanList bl cs l = true := by
  cases cs with
  | nil => simp [readList, labelsList, occursCleanList]
  | cons c cs =>
    by_cases hc : c.label ∈ bl
    · simp only [readList, if_pos hc, occursCleanList, Bool.or_eq_true,
        Bool.and_eq_true, Bool.not_eq_true', decide_eq_false_iff_not]
      rw [readList_labels_iff bl cs l]
      simp [hc]
    · simp only [readList, if_neg hc, labelsList, List.mem_append,
        occursCleanList, Bool.or_eq_true, Bool.and_eq_true, Bool.not_eq_true',
        decide_eq_false_iff_not]
      rw [readHierarchy_labels_iff bl c l, readList_labels_iff bl cs l]
      simp [hc]

end

mutual

theorem readHierarchy_labels_clean (bl : List String) (j : JNode) (l : String) :
    l ∈ (readHierarchy bl j).labels → l = j.label ∨ l ∉ bl := by
  cases j with
  | mk lab cs =>
    simp only [readHierarchy, HTree.labels, List.mem_cons, JNode.label]
    rintro (rfl | hl)
    · exact Or.inl rfl
    · exact Or.inr (readList_labels_clean bl cs l hl)

theorem readList_labels_clean (bl : List String) (cs : List JNode) (l : String) :
    l ∈ labelsList (readList bl cs) → l ∉ bl := by
  cases cs with
  | nil => simp [readList, labelsList]
  | cons c cs =>
    by_cases hc : c.label ∈ bl
    · simp only [readList, if_pos hc]
      exact readList_labels_clean bl cs l
    · simp only [readList, if_neg hc, labelsList, List.mem_append]
      rintro (hl | hl)
      · rcases readHierarchy_labels_clean bl c l hl with rfl | hnot
        · exact hc
        · exact hnot
      · exact readList_labels_clean bl cs l hl

end

/-! ### The claims -/

/-- Claim C1, evaluated at the failing input: Dog has height 0, Animal has
height 1, the two boxes overlap with IoU above the 0.85 threshold, and yet
`_nms` keeps both indices — the coarser Animal detection (index 1) is not
suppressed, because the ascending height sort makes the keep condition
vacuously true in every iteration.  This contradicts the suppression that the
claim (and the code's own comments) describe. -/
theorem nms_never_suppresses_dog_animal :
    lookupHeight hDA "Dog" = some 0 ∧ lookupHeight hDA "Animal" = some 1 ∧
    (85 : ℚ)/100 < iou boxA boxB ∧
    nms hDA (85/100) dogAnimalBoxes dogAnimalClasses = some [0, 1] :=
  ⟨rfl, rfl, by norm_num [iou, inter, area, boxA, boxB, max_def, min_def], rfl⟩

/-- Claim C2: when every class name resolves in the hierarchy, `_nms` keeps
every input index — its result is exactly the indices `0..n-1` sorted by
ascending taxonomy height, i.e. the NMS step is a pure height sort with no
filtering. -/
theorem nms_is_pure_height_sort (h : HTree) (τ : ℚ) (boxes : List Box)
    (cls : List String) (hs : List Nat)
    (hres : lookupHeights h cls = some hs) :
    nms h τ boxes cls = some (argsort hs) ∧
    (argsort hs).Perm (List.range cls.length) ∧
    (argsort hs).Sorted (fun i j => hs.getD i 0 ≤ hs.getD j 0) := by
  refine ⟨?_, ?_, argsort_sorted hs⟩
  · simp only [nms, hres, Option.map_some']
    exact congrArg some (nmsSweep_sorted_eq boxes hs τ _ (argsort_sorted hs))
  · rw [← lookupHeights_length h cls hs hres]
    exact argsort_perm hs

/-- Witness for C2 at the Dog/Animal fixture. -/
theorem nms_is_pure_height_sort_witness :
    lookupHeights hDA dogAnimalClasses = some [0, 1] ∧
    (nms hDA (85/100) dogAnimalBoxes dogAnimalClasses = some (argsort [0, 1]) ∧
      (argsort [0, 1]).Perm (List.range dogAnimalClasses.length) ∧
      List.Sorted (fun i j => ([0, 1] : List Nat).getD i 0 ≤ ([0, 1] : List Nat).getD j 0)
        (argsort [0, 1])) :=
  ⟨rfl, nms_is_pure_height_sort hDA (85/100) dogAnimalBoxes dogAnimalClasses
    [0, 1] rfl⟩

/-- Claim C3, evaluated at the failing input: on the spec's concrete scenario
`Filter` returns both labels, "Dog" and "Animal" — the Animal detection is not
suppressed and the output is not the singleton containing "dog". -/
theorem filterCall_dog_animal_returns_both :
    filterCall hDA (85/100) 3 dogAnimalBoxes dogAnimalClasses dogAnimalScores =
      some ["Dog", "Animal"] := by
  norm_num +decide [filterCall, prefilterIndices, selectStage, nms,
    lookupHeights, lookupHeight, lookupNode, HTree.preorder, preorderList,
    isSubstrOf, HTree.height, heightList, argsort, nmsSweep, nmsSweepFuel,
    keepCond, iou, inter, area, applyReplacement, REPLACEMENTS, BLACKLIST, hDA,
    boxA, boxB, dogAnimalBoxes, dogAnimalClasses, dogAnimalScores,
    List.insertionSort, List.orderedInsert, List.filter, List.dedup,
    List.lookup, List.range_succ, max_def, min_def]

/-- Claim C4: in every iteration of the greedy NMS sweep, the next round is
exactly the remaining indices filtered by the keep condition, and a remaining
index `j` survives iff its class height is at least the current one's or its
IoU with the current box is at most the threshold — it is removed exactly when
both fail. -/
theorem nmsSweep_survivor_iff (boxes : List Box) (hs : List Nat) (τ : ℚ)
    (cur j : Nat) (rest : List Nat) (hj : j ∈ rest) :
    nmsSweep boxes hs τ (cur :: rest) =
      cur :: nmsSweep boxes hs τ (rest.filter (keepCond boxes hs τ cur)) ∧
    (j ∈ rest.filter (keepCond boxes hs τ cur) ↔
      (hs.getD cur 0 ≤ hs.getD j 0 ∨
        iou (boxes.getD cur default) (boxes.getD j default) ≤ τ)) := by
  refine ⟨nmsSweep_cons boxes hs τ cur rest, ?_⟩
  simp [List.mem_filter, keepCond, hj, iou]

/-- Witness for C4 at the Dog/Animal fixture. -/
theorem nmsSweep_survivor_iff_witness :
    nmsSweep dogAnimalBoxes [0, 1] (85/100) (0 :: [1]) =
      0 :: nmsSweep dogAnimalBoxes [0, 1] (85/100)
        ([1].filter (keepCond dogAnimalBoxes [0, 1] (85/100) 0)) ∧
    (1 ∈ [1].filter (keepCond dogAnimalBoxes [0, 1] (85/100) 0) ↔
      (([0, 1] : List Nat).getD 0 0 ≤ ([0, 1] : List Nat).getD 1 0 ∨
        iou (dogAnimalBoxes.getD 0 default) (dogAnimalBoxes.getD 1 default) ≤
          85/100)) :=
  nmsSweep_survivor_iff dogAnimalBoxes [0, 1] (85/100) 0 1 [1] (by decide)

/-- Claim C5: every label in a successful `Filter` output originates from a
detection that survived the pre-filter — positive score and class name not in
the blacklist — so zero-score and blacklisted detections never contribute. -/
theorem filter_output_from_prefilter (h : HTree) (τ : ℚ) (topk : Nat)
    (boxes : List Box) (cls : List String) (scores : List ℚ)
    (out : List String) (lab : String)
    (hout : filterCall h τ topk boxes cls scores = some out)
    (hlab : lab ∈ out) :
    ∃ i, i < cls.length ∧ 0 < scores.getD i 0 ∧ cls.getD i "" ∉ BLACKLIST ∧
      lab = applyReplacement (cls.getD i "") := by
  simp only [filterCall] at hout
  split at hout
  · split at hout
    · obtain ⟨keep2, hnms, hsel⟩ := Option.map_eq_some'.mp hout
      subst hsel
      obtain ⟨j, hj, rfl⟩ := mem_selectStage _ _ _ _ _ hlab
      simp only [nms] at hnms
      obtain ⟨hs, hres, hkeep⟩ := Option.map_eq_some'.mp hnms
      subst hkeep
      have hj2 : j ∈ argsort hs := nmsSweep_subset _ _ _ _ _ hj
      have hj3 : j < hs.length := by
        have hmem := (argsort_perm hs).mem_iff.mp hj2
        simpa using hmem
      have hj4 : j < (prefilterIndices cls scores).length := by
        have hlen := lookupHeights_length h _ hs hres
        rw [List.length_map] at hlen
        omega
      have hmap : ((prefilterIndices cls scores).map
          (fun i => cls.getD i "")).getD j "" =
          cls.getD ((prefilterIndices cls scores).getD j 0) "" := by
        rw [List.getD_eq_getElem _ _ (by simpa using hj4), List.getElem_map,
          List.getD_eq_getElem _ _ hj4]
      rw [hmap]
      have hmem : (prefilterIndices cls scores).getD j 0 ∈
          prefilterIndices cls scores := by
        rw [List.getD_eq_getElem _ _ hj4]
        exact List.getElem_mem _
      obtain ⟨h1, h2, h3⟩ := (mem_prefilterIndices cls scores _).mp hmem
      exact ⟨_, h1, h2, h3, rfl⟩
    · exact absurd hout (by simp)
  · exact absurd hout (by simp)

/-- Witness for C5 at the Dog/Animal fixture: the output label "Dog" comes
from surviving detection 0. -/
theorem filter_output_from_prefilter_witness :
    ∃ i, i < dogAnimalClasses.length ∧ 0 < dogAnimalScores.getD i 0 ∧
      dogAnimalClasses.getD i "" ∉ BLACKLIST ∧
      "Dog" = applyReplacement (dogAnimalClasses.getD i "") :=
  filter_output_from_prefilter hDA (85/100) 3 dogAnimalBoxes dogAnimalClasses
    dogAnimalScores ["Dog", "Animal"] "Dog"
    (by norm_num +decide [filterCall, prefilterIndices, selectStage, nms,
      lookupHeights, lookupHeight, lookupNode, HTree.preorder, preorderList,
      isSubstrOf, HTree.height, heightList, argsort, nmsSweep, nmsSweepFuel,
      keepCond, iou, inter, area, applyReplacement, REPLACEMENTS, BLACKLIST,
      hDA, boxA, boxB, dogAnimalBoxes, dogAnimalClasses, dogAnimalScores,
      List.insertionSort, List.orderedInsert, List.filter, List.dedup,
      List.lookup, List.range_succ, max_def, min_def])
    (by decide)

/-- Claim C6: a successful `Filter` output never has more than `topk` labels. -/
theorem filter_output_card_le_topk (h : HTree) (τ : ℚ) (topk : Nat)
    (boxes : List Box) (cls : List String) (scores : List ℚ)
    (out : List String)
    (hout : filterCall h τ topk boxes cls scores = some out) :
    out.length ≤ topk := by
  simp only [filterCall] at hout
  split at hout
  · split at hout
    · obtain ⟨keep2, hnms, hsel⟩ := Option.map_eq_some'.mp hout
      subst hsel
      simp only [selectStage]
      refine le_trans (List.Sublist.length_le (List.dedup_sublist _)) ?_
      rw [List.length_map]
      exact List.length_take_le _ _
    · exact absurd hout (by simp)
  · exact absurd hout (by simp)

/-- Witness for C6 on an empty batch. -/
theorem filter_output_card_le_topk_witness :
    filterCall hDA (85/100) 3 [] [] [] = some [] ∧
    ([] : List String).length ≤ 3 :=
  ⟨rfl, filter_output_card_le_topk hDA (85/100) 3 [] [] [] [] rfl⟩

/-- Claim C7 is false on the code: `__call__` performs no length validation.
Here `boxes` and `scores` have one entry while `class_names` is empty, and the
call succeeds with an empty result instead of reporting a mismatch. -/
theorem filterCall_no_dimension_check :
    filterCall hDA (85/100) 3 [boxA] [] [9/10] = some [] ∧
    [boxA].length ≠ ([] : List String).length :=
  ⟨rfl, by decide⟩

/-- Claim C7 as amended: `Filter` never reports a length mismatch — it
silently processes the truncated batch.  Whenever `class_names` is no longer
than `boxes` and `scores`, the call (mismatched or not) returns exactly what
it returns on `boxes` and `scores` truncated to `len(class_names)`: the extra
rows are silently ignored.  The remaining mismatch shapes do error in the
code, but only as generic out-of-range index errors — `scores[i]` in the
pre-filter loop when `scores` is shorter than `class_names`, or
`boxes[keep_indices]` when a surviving index is out of range of `boxes` —
never as a dedicated DimensionMismatch. -/
theorem filterCall_truncated_batch (h : HTree) (τ : ℚ) (topk : Nat)
    (boxes : List Box) (cls : List String) (scores : List ℚ)
    (hb : cls.length ≤ boxes.length) (hs : cls.length ≤ scores.length) :
    filterCall h τ topk boxes cls scores =
      filterCall h τ topk (boxes.take cls.length) cls
        (scores.take cls.length) := by
  have hpre : prefilterIndices cls (scores.take cls.length) =
      prefilterIndices cls scores := by
    unfold prefilterIndices
    apply List.filter_congr
    intro i hi
    rw [List.mem_range] at hi
    rw [getD_take _ _ _ _ hi]
  have hls : cls.length ≤ (scores.take cls.length).length := by
    rw [List.length_take]; omega
  have hmem : ∀ i ∈ prefilterIndices cls scores, i < cls.length := fun i hi =>
    ((mem_prefilterIndices cls scores i).mp hi).1
  have hguard1 : (prefilterIndices cls scores).all
      (fun i => decide (i < boxes.length)) = true := by
    rw [List.all_eq_true]
    intro i hi
    simpa using lt_of_lt_of_le (hmem i hi) hb
  have hguard2 : (prefilterIndices cls scores).all
      (fun i => decide (i < (boxes.take cls.length).length)) = true := by
    rw [List.all_eq_true]
    intro i hi
    rw [List.length_take]
    simpa using ⟨hmem i hi, lt_of_lt_of_le (hmem i hi) hb⟩
  have hbox : (prefilterIndices cls scores).map
      (fun i => (boxes.take cls.length).getD i default) =
      (prefilterIndices cls scores).map (fun i => boxes.getD i default) := by
    apply List.map_congr_left
    intro i hi
    rw [getD_take _ _ _ _ (hmem i hi)]
  have hsc : (prefilterIndices cls scores).map
      (fun i => (scores.take cls.length).getD i 0) =
      (prefilterIndices cls scores).map (fun i => scores.getD i 0) := by
    apply List.map_congr_left
    intro i hi
    rw [getD_take _ _ _ _ (hmem i hi)]
  unfold filterCall
  rw [hpre, if_pos hs, if_pos hls, if_pos hguard1, if_pos hguard2, hbox, hsc]

/-- Witness for C7's amended theorem: one class name with two boxes and two
scores — a mismatched batch processed as the one-detection batch. -/
theorem filterCall_truncated_batch_witness :
    (["Dog"] : List String).length ≤ [boxA, boxB].length ∧
    (["Dog"] : List String).length ≤ ([9/10, 8/10] : List ℚ).length ∧
    filterCall hDA (85/100) 3 [boxA, boxB] ["Dog"] [9/10, 8/10] =
      filterCall hDA (85/100) 3
        ([boxA, boxB].take (["Dog"] : List String).length) ["Dog"]
        (([9/10, 8/10] : List ℚ).take (["Dog"] : List String).length) :=
  ⟨by decide, by decide, filterCall_truncated_batch hDA (85/100) 3
    [boxA, boxB] ["Dog"] [9/10, 8/10] (by decide) (by decide)⟩

/-- Claim C8 is false as stated: a taxonomy whose root label is blacklisted
still yields a hierarchy containing that label, because `__read_hierarchy`
only tests children against the blacklist. -/
theorem readHierarchy_keeps_blacklisted_root :
    "person" ∈ (readHierarchy ["person"] (JNode.mk "person" [])).labels ∧
    "person" ∈ ["person"] := by
  constructor
  · simp [readHierarchy, readList, HTree.labels, labelsList]
  · simp

/-- Claim C8 as amended (the root node is exempt, since the code never tests
it): every non-root node of the constructed hierarchy has a label outside the
blacklist, and a label occurs in the constructed tree iff it occurs in the
taxonomy description along a path whose child steps all avoid the blacklist —
so nothing beneath a pruned child survives, even with a non-blacklisted
label. -/
theorem readHierarchy_prunes (bl : List String) (j : JNode) :
    (∀ l ∈ labelsList (readHierarchy bl j).children, l ∉ bl) ∧
    (∀ l, l ∈ (readHierarchy bl j).labels ↔ occursClean bl j l = true) := by
  constructor
  · intro l hl
    cases j with
    | mk lab cs =>
      exact readList_labels_clean bl cs l
        (by simpa [readHierarchy, HTree.children] using hl)
  · intro l
    exact readHierarchy_labels_iff bl j l

/-- Witness for C8: a pruned "person" child drops its non-blacklisted "Dog"
descendant. -/
theorem readHierarchy_prunes_witness :
    (∀ l ∈ labelsList (readHierarchy ["person"]
      (JNode.mk "Entity" [JNode.mk "person" [JNode.mk "Dog" []]])).children,
      l ∉ ["person"]) ∧
    (∀ l, l ∈ (readHierarchy ["person"]
      (JNode.mk "Entity" [JNode.mk "person" [JNode.mk "Dog" []]])).labels ↔
      occursClean ["person"]
        (JNode.mk "Entity" [JNode.mk "person" [JNode.mk "Dog" []]]) l = true) :=
  readHierarchy_prunes ["person"]
    (JNode.mk "Entity" [JNode.mk "person" [JNode.mk "Dog" []]])

/-- Claim C9 is false on the code: the blacklist does not have 27 entries
(its entries are pairwise distinct and there are 39 of them). -/
theorem blacklist_not_27_entries : BLACKLIST.Nodup ∧ BLACKLIST.length ≠ 27 := by
  constructor
  · decide
  · decide

/-- Claim C9 as amended: `BLACKLIST` contains exactly 39 distinct string
entries. -/
theorem blacklist_39_entries : BLACKLIST.length = 39 ∧ BLACKLIST.Nodup :=
  ⟨rfl, by decide⟩

/-- Claim C10: the label replacement map is idempotent — applying it twice
yields the same result as applying it once, because no replacement value is
itself a replacement key. -/
theorem applyReplacement_idempotent (s : String) :
    applyReplacement (applyReplacement s) = applyReplacement s := by
  by_cases h1 : s = "band-aid"
  · subst h1; rfl
  by_cases h2 : s = "wood-burning stove"
  · subst h2; rfl
  by_cases h3 : s = "kitchen & dining room table"
  · subst h3; rfl
  by_cases h4 : s = "salt and pepper shakers"
  · subst h4; rfl
  by_cases h5 : s = "power plugs and sockets"
  · subst h5; rfl
  by_cases h6 : s = "luggage and bags"
  · subst h6; rfl
  have e1 : (s == "band-aid") = false := beq_eq_false_iff_ne.mpr h1
  have e2 : (s == "wood-burning stove") = false := beq_eq_false_iff_ne.mpr h2
  have e3 : (s == "kitchen & dining room table") = false :=
    beq_eq_false_iff_ne.mpr h3
  have e4 : (s == "salt and pepper shakers") = false :=
    beq_eq_false_iff_ne.mpr h4
  have e5 : (s == "power plugs and sockets") = false :=
    beq_eq_false_iff_ne.mpr h5
  have e6 : (s == "luggage and bags") = false := beq_eq_false_iff_ne.mpr h6
  have hnone : REPLACEMENTS.lookup s = none := by
    simp [REPLACEMENTS, List.lookup, e1, e2, e3, e4, e5, e6]
  simp [applyReplacement, hnone]

end Updown
